import Mathlib

/-!
# go-dev-server: static-directory resolution and server start-up

A shallow embedding of `go-dev-server/main.go`.  The program has a single
function, `main`; its effects (executable lookup, `os.Stat`, handler
registration, logging, listening, process exit) are recorded as an explicit
trace of events, and the operating system is a parameter (`Platform`).

The standard-library functions `filepath.Clean`, `filepath.Dir` and
`filepath.Join` that `main` calls are embedded after their POSIX
implementation (separator `/`, no volume names), on the characters of the
path.  Go strings are byte sequences; these functions compare a byte only with
`/` and `.`, which never occur inside a multi-byte UTF-8 character, so on
UTF-8 paths working on characters gives the same result.
-/

namespace GoDevServer

/-! ## path/filepath (POSIX) -/

/-- The path separator, `filepath.Separator`. -/
def Separator : Char := '/'

/-- The function `os.IsPathSeparator`. -/
def IsPathSeparator (c : Char) : Bool := c == Separator

/-- The output buffer of `Clean`: `buf` holds the bytes written so far and `w`
is the index of the next byte to write.  Bytes at positions `≥ w` are never
read before being overwritten. -/
structure lazybuf where
  buf : List Char
  w : Nat
deriving DecidableEq, Repr

/-- The method `lazybuf.index`. -/
def lazybuf.index (b : lazybuf) (i : Nat) : Char := b.buf.getD i ' '

/-- The method `lazybuf.append`: write `c` at position `w`, advance `w`. -/
def lazybuf.append (b : lazybuf) (c : Char) : lazybuf :=
  ⟨b.buf.take b.w ++ [c], b.w + 1⟩

/-- The method `lazybuf.string`: the first `w` bytes. -/
def lazybuf.string (b : lazybuf) : List Char := b.buf.take b.w

/-- The condition `r == n || os.IsPathSeparator(path[r])` on the unread
remainder `path[r:]`. -/
def atEndOrSep : List Char → Bool
  | [] => true
  | c :: _ => IsPathSeparator c

/-- The inner loop of the `..` case of `Clean`,
`for out.w > dotdot && !os.IsPathSeparator(out.index(out.w)) { out.w-- }`,
as a function of the current `w`. -/
def backtrackLoop (out : lazybuf) (dotdot : Nat) : Nat → Nat
  | 0 => 0
  | w + 1 =>
    if w + 1 > dotdot && !IsPathSeparator (out.index (w + 1)) then
      backtrackLoop out dotdot w
    else w + 1

/-- The `..` case of `Clean` when `out.w > dotdot`: `out.w--` and then the
backtracking loop. -/
def backtrack (out : lazybuf) (dotdot : Nat) : lazybuf :=
  { out with w := backtrackLoop out dotdot (out.w - 1) }

/-- The main loop `for r < n { switch ... }` of `Clean`.  The read position
`r` is carried as the unread remainder `path[r:]`; every iteration consumes at
least one byte, so `fuel = len(path)` iterations are enough
(`cleanLoop_fuel`). -/
def cleanLoop (rooted : Bool) : Nat → List Char → lazybuf → Nat → lazybuf
  | 0, _, out, _ => out
  | _ + 1, [], out, _ => out
  | fuel + 1, c :: rest, out, dotdot =>
    if IsPathSeparator c then
      -- empty path element
      cleanLoop rooted fuel rest out dotdot
    else if c == '.' && atEndOrSep rest then
      -- . element
      cleanLoop rooted fuel rest out dotdot
    else if c == '.' && rest.head? == some '.' && atEndOrSep (rest.drop 1) then
      -- .. element: remove to last separator
      if out.w > dotdot then
        -- can backtrack
        cleanLoop rooted fuel (rest.drop 1) (backtrack out dotdot) dotdot
      else if !rooted then
        -- cannot backtrack, but not rooted, so append .. element
        let out1 := if out.w > 0 then out.append Separator else out
        let out2 := (out1.append '.').append '.'
        cleanLoop rooted fuel (rest.drop 1) out2 out2.w
      else
        cleanLoop rooted fuel (rest.drop 1) out dotdot
    else
      -- real path element: add slash if needed, copy element
      let out1 :=
        if (rooted && out.w != 1) || (!rooted && out.w != 0) then out.append Separator
        else out
      let out2 := ((c :: rest).takeWhile (fun x => !IsPathSeparator x)).foldl lazybuf.append out1
      cleanLoop rooted fuel ((c :: rest).dropWhile (fun x => !IsPathSeparator x)) out2 dotdot

/-- The function `filepath.Clean` on the bytes of the path.  With no volume
name, `path == ""` returns `"."`; `postClean` and `FromSlash` are the identity
on POSIX. -/
def cleanChars (path : List Char) : List Char :=
  if path = [] then ['.']
  else
    let rooted := IsPathSeparator (path.headD ' ')
    let out0 : lazybuf := ⟨[], 0⟩
    let out1 := if rooted then out0.append Separator else out0
    let r := if rooted then 1 else 0
    let out2 := cleanLoop rooted path.length (path.drop r) out1 r
    -- turn empty string into "."
    let out3 := if out2.w = 0 then out2.append '.' else out2
    out3.string

/-- The function `filepath.Clean`. -/
def Clean (path : String) : String := ⟨cleanChars path.data⟩

/-- The loop `for i >= 0 && !os.IsPathSeparator(path[i]) { i-- }` of `Dir`, as
a function of `i + 1`; the result is `i + 1` at loop exit. -/
def dirEnd (path : List Char) : Nat → Nat
  | 0 => 0
  | i + 1 => if !IsPathSeparator (path.getD i ' ') then dirEnd path i else i + 1

/-- The function `filepath.Dir`: `Clean(path[0 : i+1])`. -/
def Dir (path : String) : String :=
  ⟨cleanChars (path.data.take (dirEnd path.data path.data.length))⟩

/-- The function `strings.Join(elem, "/")`. -/
def joinSep : List String → String
  | [] => ""
  | [e] => e
  | e :: rest => e ++ "/" ++ joinSep rest

/-- The function `filepath.Join`: skip leading empty elements, join the rest
with the separator and clean; the empty string if all elements are empty. -/
def Join : List String → String
  | [] => ""
  | e :: rest => if e ≠ "" then Clean (joinSep (e :: rest)) else Join rest

/-! ## The operating system as seen by `main` -/

/-- The outcome of `os.Stat(path)` as far as `main` inspects it: `err == nil`,
an error for which `os.IsNotExist` holds, or any other error (permission
denied, not a directory, ...). -/
inductive StatResult
  | ok
  | notExist
  | otherError
deriving DecidableEq, Repr

/-- The function `os.IsNotExist` applied to the error of an `os.Stat` call;
it is false for a nil error. -/
def IsNotExist : StatResult → Bool
  | .notExist => true
  | _ => false

/-- The outcome of `http.ListenAndServe(addr, nil)`.  The call returns only
with a non-nil error: either the listener could not be bound, or it was bound
and serving stopped later with an error; otherwise it blocks for the lifetime
of the process. -/
inductive ListenResult
  | bindError (err : String)
  | serveError (err : String)
  | blocks
deriving DecidableEq, Repr

/-- The environment of one run of the program. -/
structure Platform where
  /-- The result of `os.Executable()`: the path, or the text of the error. -/
  Executable : Except String String
  /-- The result of `os.Stat` on a path. -/
  Stat : String → StatResult
  /-- The result of `http.ListenAndServe` on an address. -/
  ListenAndServe : String → ListenResult

/-- The observable actions of `main`, in program order. -/
inductive Event
  /-- The call `os.Executable()`. -/
  | executable
  /-- The call `os.Stat(path)`. -/
  | stat (path : String)
  /-- The call `http.Handle(pattern, http.FileServer(http.Dir(root)))`. -/
  | handle (pattern : String) (root : String)
  /-- A line written by `log.Printf`. -/
  | printf (line : String)
  /-- The call `http.ListenAndServe(addr, nil)`. -/
  | listen (addr : String)
  /-- A line written by `log.Fatalf`, which then calls `os.Exit(1)`. -/
  | fatalf (line : String)
deriving DecidableEq, Repr

/-- How a run ends. -/
inductive Outcome
  /-- The process terminated with this exit code. -/
  | exited (code : Nat)
  /-- The process is blocked in `http.ListenAndServe`, serving requests. -/
  | serving
deriving DecidableEq, Repr

/-- One run: the events in order, and how it ended. -/
structure Run where
  trace : List Event
  outcome : Outcome
deriving DecidableEq, Repr

/-! ## `main` -/

/-- Lines 17-26 of `main`: the fallback probe for the static directory, given
`executableDir`.  Returns the final value of `staticDir` and the `os.Stat`
calls made, in order. -/
def resolveStaticDir (Stat : String → StatResult) (executableDir : String) :
    String × List Event :=
  let staticDir := "./go-dev-server/static"
  if IsNotExist (Stat staticDir) then
    -- If binary is located at root of go-dev-server
    let staticDir2 := Join [executableDir, "static"]
    -- If binary is not present at root, assume cwd is go-dev-server
    if IsNotExist (Stat staticDir2) then
      ("./static", [Event.stat staticDir, Event.stat staticDir2])
    else
      (staticDir2, [Event.stat staticDir, Event.stat staticDir2])
  else
    (staticDir, [Event.stat staticDir])

/-- Lines 28-37 of `main`: register the file server, log, listen. -/
def serve (p : Platform) (staticDir : String) : Run :=
  let port := "8080"
  let startup : List Event :=
    [ Event.handle "/" staticDir,
      Event.printf ("Starting server on http://localhost:" ++ port),
      Event.printf ("Serving files from directory: " ++ staticDir),
      Event.listen (":" ++ port) ]
  match p.ListenAndServe (":" ++ port) with
  | .bindError err => ⟨startup ++ [Event.fatalf ("Failed to start server: " ++ err)], .exited 1⟩
  | .serveError err => ⟨startup ++ [Event.fatalf ("Failed to start server: " ++ err)], .exited 1⟩
  | .blocks => ⟨startup, .serving⟩

/-- The function `main`. -/
def main (p : Platform) : Run :=
  match p.Executable with
  | .error err =>
    ⟨[Event.executable, Event.fatalf ("Failed to get executable path: " ++ err)], .exited 1⟩
  | .ok executablePath =>
    let executableDir := Dir executablePath
    let r := resolveStaticDir p.Stat executableDir
    let s := serve p r.1
    ⟨Event.executable :: r.2 ++ s.trace, s.outcome⟩

/-- The static directory a run resolves: the value of `staticDir` at line 28,
or `none` when the run ends at line 13. -/
def resolvedDir (p : Platform) : Option String :=
  match p.Executable with
  | .error _ => none
  | .ok executablePath => some (resolveStaticDir p.Stat (Dir executablePath)).1

/-! ## Observations on a run -/

/-- The paths passed to `os.Stat`, in order. -/
def statCalls : List Event → List String
  | [] => []
  | .stat path :: es => path :: statCalls es
  | _ :: es => statCalls es

/-- The addresses passed to `http.ListenAndServe`, in order. -/
def listenCalls : List Event → List String
  | [] => []
  | .listen addr :: es => addr :: listenCalls es
  | _ :: es => listenCalls es

/-- The handlers registered, as (pattern, file-server root), in order. -/
def handlers : List Event → List (String × String)
  | [] => []
  | .handle pattern root :: es => (pattern, root) :: handlers es
  | _ :: es => handlers es

/-- The lines written to the log, informational and fatal, in order. -/
def logLines : List Event → List String
  | [] => []
  | .printf line :: es => line :: logLines es
  | .fatalf line :: es => line :: logLines es
  | _ :: es => logLines es

/-! ## Predicates used in the proofs -/

/-- A buffer is well formed when all `w` bytes counted have been written. -/
def lazybuf.WF (b : lazybuf) : Prop := b.w ≤ b.buf.length

/-- The property of the output of `Clean` maintained by its loop: the path
written so far is not the single element `.` and does not begin with a `.`
element. -/
def Good (l : List Char) : Prop := l ≠ ['.'] ∧ ∀ t, l ≠ '.' :: '/' :: t

/-- The loop invariant of `Clean`. -/
structure Inv (rooted : Bool) (out : lazybuf) (dotdot : Nat) : Prop where
  wf : out.WF
  le : dotdot ≤ out.w
  good : Good out.string
  goodDot : Good (out.buf.take dotdot)
  root : rooted = true → 1 ≤ dotdot ∧ out.buf.take 1 = ['/']

/-! ## Sample environments -/

/-- The executable is `/usr/bin/app`, every path exists, the listener binds. -/
def platformAllExist : Platform :=
  ⟨.ok "/usr/bin/app", fun _ => .ok, fun _ => .blocks⟩

/-- The step-1 candidate does not exist, every other path does. -/
def platformStep2 : Platform :=
  ⟨.ok "/usr/bin/app",
    fun path => if path = "./go-dev-server/static" then .notExist else .ok,
    fun _ => .blocks⟩

/-- No path exists. -/
def platformNoneExist : Platform :=
  ⟨.ok "/usr/bin/app", fun _ => .notExist, fun _ => .blocks⟩

/-- Every `os.Stat` call fails with an error other than not-exist. -/
def platformDenied : Platform :=
  ⟨.ok "/usr/bin/app", fun _ => .otherError, fun _ => .blocks⟩

/-- The step-1 candidate cannot be examined (`./go-dev-server` is a regular
file, so `os.Stat` fails with "not a directory"); every other path exists. -/
def platformStep1NotDir : Platform :=
  ⟨.ok "/usr/bin/app",
    fun path => if path = "./go-dev-server/static" then .otherError else .ok,
    fun _ => .blocks⟩

/-- The step-1 candidate does not exist, and `os.Stat` on every other path
fails with an error other than not-exist (for example a symbolic-link loop). -/
def platformStep2Loop : Platform :=
  ⟨.ok "/usr/bin/app",
    fun path => if path = "./go-dev-server/static" then .notExist else .otherError,
    fun _ => .blocks⟩

/-- The executable lookup fails, although every path exists. -/
def platformNoExecutable : Platform :=
  ⟨.error "readlink /proc/self/exe: permission denied", fun _ => .ok, fun _ => .blocks⟩

/-- Port 8080 is taken: the bind fails. -/
def platformPortInUse : Platform :=
  ⟨.ok "/usr/bin/app", fun _ => .ok,
    fun _ => .bindError "listen tcp :8080: bind: address already in use"⟩

/-! ## Lemmas on the output buffer -/

theorem lazybuf.string_append (b : lazybuf) (c : Char) :
    (b.append c).string = b.string ++ [c] := by
  simp only [lazybuf.append, lazybuf.string]
  apply List.take_of_length_le
  simp

theorem lazybuf.buf_append (b : lazybuf) (c : Char) :
    (b.append c).buf = b.string ++ [c] := rfl

theorem lazybuf.w_append (b : lazybuf) (c : Char) : (b.append c).w = b.w + 1 := rfl

theorem lazybuf.WF.append {b : lazybuf} (h : b.WF) (c : Char) : (b.append c).WF := by
  unfold lazybuf.WF at *
  simp [lazybuf.append, Nat.min_eq_left h]

theorem lazybuf.WF.length_string {b : lazybuf} (h : b.WF) : b.string.length = b.w := by
  unfold lazybuf.WF at h
  simp [lazybuf.string, Nat.min_eq_left h]

theorem lazybuf.string_foldl (l : List Char) (b : lazybuf) :
    (l.foldl lazybuf.append b).string = b.string ++ l := by
  induction l generalizing b with
  | nil => simp
  | cons c l ih => simp [List.foldl_cons, ih, lazybuf.string_append]

theorem lazybuf.WF.foldl (l : List Char) {b : lazybuf} (h : b.WF) :
    (l.foldl lazybuf.append b).WF := by
  induction l generalizing b with
  | nil => simpa using h
  | cons c l ih => exact ih (h.append c)

theorem lazybuf.take_buf_foldl (l : List Char) {b : lazybuf} (h : b.WF) (k : Nat)
    (hk : k ≤ b.w) : (l.foldl lazybuf.append b).buf.take k = b.buf.take k := by
  induction l generalizing b with
  | nil => simp
  | cons c l ih =>
    rw [List.foldl_cons, ih (h.append c) (by rw [lazybuf.w_append]; omega),
      lazybuf.buf_append, lazybuf.string, List.take_append_of_le_length, List.take_take,
      Nat.min_eq_left hk]
    rw [List.length_take]; unfold lazybuf.WF at h; omega

/-! ## The invariant of `Clean` -/

theorem Good.nil : Good [] := ⟨by simp, by simp⟩

theorem Good.of_take_one {l : List Char} (h : l.take 1 = ['/']) : Good l := by
  cases l with
  | nil => simp at h
  | cons a t =>
    simp at h
    subst h
    exact ⟨by simp, by simp⟩

theorem Good.append_sep {l : List Char} (h : Good l) (hne : l ≠ []) (t : List Char) :
    Good (l ++ '/' :: t) := by
  obtain ⟨h1, h2⟩ := h
  match l, hne with
  | [a], _ =>
    have ha : a ≠ '.' := by
      intro e; subst e; exact h1 rfl
    exact ⟨by simp, by intro t2; simp [ha]⟩
  | a :: b :: l2, _ =>
    refine ⟨by simp, ?_⟩
    intro t2 e
    simp only [List.cons_append, List.cons.injEq] at e
    exact h2 l2 (by rw [e.1, e.2.1])

theorem Good.take_at_sep {l : List Char} (h : Good l) (k : Nat) (hk : l.getD k ' ' = '/') :
    Good (l.take k) := by
  obtain ⟨h1, h2⟩ := h
  match l, k with
  | [], _ => simpa using Good.nil
  | _ :: _, 0 => simpa using Good.nil
  | [a], k + 1 => simpa using (show Good [a] from ⟨h1, h2⟩)
  | a :: b :: t, 1 =>
    simp at hk
    subst hk
    have ha : a ≠ '.' := by
      intro e; subst e; exact h2 t rfl
    exact ⟨by simp [ha], by simp⟩
  | a :: b :: t, k + 2 =>
    refine ⟨by simp, ?_⟩
    intro t2 e
    simp only [List.take_succ_cons, List.cons.injEq] at e
    exact h2 t (by rw [e.1, e.2.1])

/-- A real path element, as copied by the default case of `Clean`, is not `.`
and contains no separator. -/
theorem Good.element (c : Char) (rest : List Char) (hc : IsPathSeparator c = false)
    (hdot : (c == '.' && atEndOrSep rest) = false) :
    Good ((c :: rest).takeWhile (fun x => !IsPathSeparator x)) := by
  rw [List.takeWhile_cons]
  simp only [hc, Bool.not_false, if_true]
  constructor
  · intro e
    simp only [List.cons.injEq] at e
    obtain ⟨e1, e2⟩ := e
    subst e1
    cases rest with
    | nil => simp [atEndOrSep] at hdot
    | cons d r2 =>
      simp only [atEndOrSep, beq_self_eq_true, Bool.true_and] at hdot
      simp [List.takeWhile_cons, hdot] at e2
  · intro t e
    simp only [List.cons.injEq] at e
    obtain ⟨_, e2⟩ := e
    cases rest with
    | nil => simp at e2
    | cons d r2 =>
      rw [List.takeWhile_cons] at e2
      split at e2
      · rename_i hd
        simp only [List.cons.injEq] at e2
        rw [e2.1] at hd
        simp [IsPathSeparator, Separator] at hd
      · simp at e2

theorem backtrackLoop_spec (out : lazybuf) (dotdot : Nat) :
    ∀ w, dotdot ≤ w →
      dotdot ≤ backtrackLoop out dotdot w ∧ backtrackLoop out dotdot w ≤ w ∧
      (backtrackLoop out dotdot w = dotdot ∨
        IsPathSeparator (out.index (backtrackLoop out dotdot w)) = true) := by
  intro w
  induction w with
  | zero =>
    intro h
    have : dotdot = 0 := by omega
    subst this
    simp [backtrackLoop]
  | succ w ih =>
    intro h
    unfold backtrackLoop
    split
    · rename_i hc
      simp only [Bool.and_eq_true, decide_eq_true_eq] at hc
      obtain ⟨h1, h2, h3⟩ := ih (by omega)
      exact ⟨h1, by omega, h3⟩
    · rename_i hc
      simp only [Bool.and_eq_true, decide_eq_true_eq, not_and, Bool.not_eq_true,
        Bool.not_eq_false_eq_eq_true, Bool.not_eq_true'] at hc
      refine ⟨h, le_refl _, ?_⟩
      by_cases hlt : dotdot < w + 1
      · right
        simpa using hc hlt
      · left
        omega

theorem Inv.backtrack {rooted : Bool} {out : lazybuf} {dotdot : Nat}
    (h : Inv rooted out dotdot) (hlt : dotdot < out.w) :
    Inv rooted (backtrack out dotdot) dotdot := by
  obtain ⟨h1, h2, h3⟩ := backtrackLoop_spec out dotdot (out.w - 1) (by omega)
  have hwf := h.wf
  unfold lazybuf.WF at hwf
  refine ⟨?_, h1, ?_, h.goodDot, h.root⟩
  · show backtrackLoop out dotdot (out.w - 1) ≤ out.buf.length
    omega
  · show Good (out.buf.take (backtrackLoop out dotdot (out.w - 1)))
    rcases h3 with h3 | h3
    · rw [h3]; exact h.goodDot
    · have hk : backtrackLoop out dotdot (out.w - 1) < out.w := by omega
      have hg := h.good.take_at_sep (backtrackLoop out dotdot (out.w - 1)) (by
        simp only [IsPathSeparator, Separator, beq_iff_eq, lazybuf.index] at h3
        rw [lazybuf.string, List.getD_eq_getElem?_getD, List.getElem?_take_of_lt hk,
          ← List.getD_eq_getElem?_getD]
        exact h3)
      rw [lazybuf.string, List.take_take, Nat.min_eq_left (by omega)] at hg
      exact hg

theorem Inv.dotdot {out : lazybuf} {dotdot : Nat} (h : Inv false out dotdot) :
    Inv false (((if out.w > 0 then out.append Separator else out).append '.').append '.')
      (((if out.w > 0 then out.append Separator else out).append '.').append '.').w := by
  have hlen := h.wf.length_string
  have hwf1 : (if out.w > 0 then out.append Separator else out).WF := by
    split
    · exact h.wf.append _
    · exact h.wf
  have hgood : Good (((if out.w > 0 then out.append Separator else out).append '.').append
      '.').string := by
    rw [lazybuf.string_append, lazybuf.string_append]
    split
    · rename_i hw
      rw [lazybuf.string_append, List.append_assoc, List.append_assoc]
      exact h.good.append_sep (by intro e; rw [e] at hlen; simp at hlen; omega) _
    · rename_i hw
      have : out.string = [] := by
        apply List.eq_nil_of_length_eq_zero; omega
      rw [this]
      exact ⟨by simp, by simp⟩
  exact ⟨(hwf1.append _).append _, le_refl _, hgood, hgood, by simp⟩

theorem lazybuf.take_buf_append {b : lazybuf} (h : b.WF) (c : Char) (k : Nat) (hk : k ≤ b.w) :
    (b.append c).buf.take k = b.buf.take k := by
  unfold lazybuf.WF at h
  rw [lazybuf.buf_append, lazybuf.string, List.take_append_of_le_length, List.take_take,
    Nat.min_eq_left hk]
  rw [List.length_take]; omega

theorem Inv.copy_element {rooted : Bool} {out : lazybuf} {dotdot : Nat}
    (h : Inv rooted out dotdot) (c : Char) (rest : List Char)
    (hc : IsPathSeparator c = false) (hdot : (c == '.' && atEndOrSep rest) = false) :
    Inv rooted
      (((c :: rest).takeWhile (fun x => !IsPathSeparator x)).foldl lazybuf.append
        (if (rooted && out.w != 1) || (!rooted && out.w != 0) then out.append Separator
         else out))
      dotdot := by
  have hlen := h.wf.length_string
  have hle := h.le
  -- the buffer after the optional separator
  have hwf1 : (if (rooted && out.w != 1) || (!rooted && out.w != 0) then out.append Separator
      else out).WF := by
    split
    · exact h.wf.append _
    · exact h.wf
  have hw1 : out.w ≤ (if (rooted && out.w != 1) || (!rooted && out.w != 0) then
      out.append Separator else out).w := by
    split
    · rw [lazybuf.w_append]; omega
    · exact le_refl _
  have htake1 : ∀ k, k ≤ out.w →
      (if (rooted && out.w != 1) || (!rooted && out.w != 0) then out.append Separator
        else out).buf.take k = out.buf.take k := by
    intro k hk
    split
    · exact lazybuf.take_buf_append h.wf _ k hk
    · rfl
  -- the buffer after the element
  have hwf2 := hwf1.foldl ((c :: rest).takeWhile (fun x => !IsPathSeparator x))
  have hw2 := hwf2.length_string
  rw [lazybuf.string_foldl, List.length_append, hwf1.length_string] at hw2
  have htake2 : ∀ k, k ≤ out.w →
      (((c :: rest).takeWhile (fun x => !IsPathSeparator x)).foldl lazybuf.append
        (if (rooted && out.w != 1) || (!rooted && out.w != 0) then out.append Separator
         else out)).buf.take k = out.buf.take k := by
    intro k hk
    rw [lazybuf.take_buf_foldl _ hwf1 k (by omega), htake1 k hk]
  refine ⟨hwf2, by omega, ?_, ?_, ?_⟩
  · cases rooted with
    | true =>
      obtain ⟨hd, hh⟩ := h.root rfl
      apply Good.of_take_one
      rw [lazybuf.string, List.take_take, Nat.min_eq_left (by omega), htake2 1 (by omega), hh]
    | false =>
      rw [lazybuf.string_foldl]
      by_cases hw : out.w = 0
      · have hnil : out.string = [] := by
          apply List.eq_nil_of_length_eq_zero; omega
        simp only [hw, Bool.false_and, Bool.not_false, bne_self_eq_false, Bool.and_false,
          Bool.or_self, Bool.false_eq_true, if_false, hnil, List.nil_append]
        exact Good.element c rest hc hdot
      · have hne : out.string ≠ [] := by
          intro e; rw [e] at hlen; simp at hlen; omega
        simp only [Bool.false_and, Bool.not_false, Bool.true_and, Bool.false_or, bne_iff_ne,
          ne_eq, hw, not_false_eq_true, if_true, lazybuf.string_append, List.append_assoc,
          List.singleton_append]
        exact h.good.append_sep hne _
  · rw [htake2 dotdot hle]; exact h.goodDot
  · intro hr
    obtain ⟨hd, hh⟩ := h.root hr
    exact ⟨hd, by rw [htake2 1 (by omega), hh]⟩

/-- The loop of `Clean` maintains its invariant. -/
theorem cleanLoop_inv (rooted : Bool) :
    ∀ (fuel : Nat) (rest : List Char) (out : lazybuf) (dotdot : Nat),
      Inv rooted out dotdot → ∃ dd, Inv rooted (cleanLoop rooted fuel rest out dotdot) dd := by
  intro fuel
  induction fuel with
  | zero => intro rest out dotdot h; exact ⟨dotdot, by simpa [cleanLoop] using h⟩
  | succ fuel ih =>
    intro rest out dotdot h
    cases rest with
    | nil => exact ⟨dotdot, by simpa [cleanLoop] using h⟩
    | cons c rest =>
      unfold cleanLoop
      split
      · exact ih _ _ _ h
      · rename_i hc
        split
        · exact ih _ _ _ h
        · rename_i hdot
          split
          · split
            · rename_i hlt
              exact ih _ _ _ (h.backtrack hlt)
            · split
              · rename_i hr
                have hr2 : rooted = false := by simpa using hr
                subst hr2
                exact ih _ _ _ h.dotdot
              · exact ih _ _ _ h
          · exact ih _ _ _ (h.copy_element c rest (by simpa using hc) (by simpa using hdot))

/-- The last step of `Clean`, turning an empty result into `.`, on a buffer that
satisfies the invariant. -/
theorem Inv.finish {rooted : Bool} {out : lazybuf} {dotdot : Nat}
    (hinv : Inv rooted out dotdot) :
    (if out.w = 0 then out.append '.' else out).string ≠ [] ∧
      ∀ t, (if out.w = 0 then out.append '.' else out).string ≠ '.' :: '/' :: t := by
  have hlen := hinv.wf.length_string
  split
  · rename_i hw
    rw [hw] at hlen
    rw [lazybuf.string_append, List.eq_nil_of_length_eq_zero hlen]
    exact ⟨by simp, by simp⟩
  · rename_i hw
    refine ⟨?_, hinv.good.2⟩
    intro e
    rw [e] at hlen
    simp at hlen
    omega

/-- The result of `Clean` is a non-empty path that does not begin with a `.`
element followed by a separator. -/
theorem cleanChars_good (path : List Char) :
    cleanChars path ≠ [] ∧ ∀ t, cleanChars path ≠ '.' :: '/' :: t := by
  unfold cleanChars
  split
  · exact ⟨by simp, by simp⟩
  · have hinit : Inv (IsPathSeparator (path.headD ' '))
        (if IsPathSeparator (path.headD ' ') = true then
          lazybuf.append ⟨[], 0⟩ Separator else ⟨[], 0⟩)
        (if IsPathSeparator (path.headD ' ') = true then 1 else 0) := by
      cases IsPathSeparator (path.headD ' ') with
      | true =>
        exact ⟨by simp [lazybuf.WF, lazybuf.append], by simp [lazybuf.append],
          Good.of_take_one (by simp [lazybuf.string, lazybuf.append, Separator]),
          Good.of_take_one (by simp [lazybuf.append, Separator]),
          fun _ => ⟨le_refl _, by simp [lazybuf.append, Separator]⟩⟩
      | false =>
        exact ⟨by simp [lazybuf.WF], by simp, by simpa [lazybuf.string] using Good.nil,
          by simpa using Good.nil, by simp⟩
    obtain ⟨dd, hinv⟩ := cleanLoop_inv _ path.length
      (path.drop (if IsPathSeparator (path.headD ' ') = true then 1 else 0)) _ _ hinit
    exact hinv.finish

/-- Fuel beyond the length of the unread remainder does not change the result
of the loop of `Clean`: the loop has ended by then. -/
theorem cleanLoop_fuel (rooted : Bool) :
    ∀ (fuel fuel2 : Nat) (rest : List Char) (out : lazybuf) (dotdot : Nat),
      rest.length ≤ fuel → rest.length ≤ fuel2 →
      cleanLoop rooted fuel rest out dotdot = cleanLoop rooted fuel2 rest out dotdot := by
  intro fuel
  induction fuel with
  | zero =>
    intro fuel2 rest out dotdot h1 _
    have : rest = [] := List.eq_nil_of_length_eq_zero (by omega)
    subst this
    cases fuel2 <;> simp [cleanLoop]
  | succ fuel ih =>
    intro fuel2 rest out dotdot h1 h2
    cases rest with
    | nil => cases fuel2 <;> simp [cleanLoop]
    | cons c rest =>
      cases fuel2 with
      | zero => simp at h2
      | succ fuel2 =>
        simp only [List.length_cons, Nat.add_le_add_iff_right] at h1 h2
        have hd : (rest.drop 1).length ≤ rest.length := by simp
        unfold cleanLoop
        split
        · exact ih _ _ _ _ h1 h2
        · rename_i hc
          have hw : ((c :: rest).dropWhile (fun x => !IsPathSeparator x)).length
              ≤ rest.length := by
            rw [List.dropWhile_cons]
            simp only [hc, Bool.not_eq_true, Bool.not_false, if_true]
            exact (List.dropWhile_sublist _).length_le
          split
          · exact ih _ _ _ _ h1 h2
          · split
            · split
              · exact ih _ _ _ _ (by omega) (by omega)
              · split
                · exact ih _ _ _ _ (by omega) (by omega)
                · exact ih _ _ _ _ (by omega) (by omega)
            · exact ih _ _ _ _ (by omega) (by omega)

theorem Clean_ne_empty (path : String) : Clean path ≠ "" := by
  intro e
  have h := congrArg String.data e
  exact (cleanChars_good path.data).1 h

theorem Clean_not_dot_slash (path : String) (t : List Char) :
    (Clean path).data ≠ '.' :: '/' :: t :=
  (cleanChars_good path.data).2 t

theorem Dir_ne_empty (path : String) : Dir path ≠ "" := by
  intro e
  have h := congrArg String.data e
  exact (cleanChars_good _).1 h

/-- The function `Join` returns the empty string or a cleaned path. -/
theorem Join_eq (elem : List String) : Join elem = "" ∨ ∃ path, Join elem = Clean path := by
  induction elem with
  | nil => left; rfl
  | cons e rest ih =>
    unfold Join
    split
    · right; exact ⟨_, rfl⟩
    · exact ih

theorem Join_not_dot_slash (elem : List String) (t : List Char) :
    (Join elem).data ≠ '.' :: '/' :: t := by
  rcases Join_eq elem with h | ⟨path, h⟩
  · rw [h]; simp
  · rw [h]; exact Clean_not_dot_slash path t

/-- The step-2 candidate is a cleaned, non-empty path. -/
theorem Join_static_ne_empty (dir : String) : Join [dir, "static"] ≠ "" := by
  unfold Join
  split
  · exact Clean_ne_empty _
  · unfold Join
    split
    · exact Clean_ne_empty _
    · rename_i h; exact absurd (by decide) h

theorem Join_ne_step1 (elem : List String) : Join elem ≠ "./go-dev-server/static" := by
  intro e
  exact Join_not_dot_slash elem _ (congrArg String.data e)

theorem Join_ne_step3 (elem : List String) : Join elem ≠ "./static" := by
  intro e
  exact Join_not_dot_slash elem _ (congrArg String.data e)

/-! ## Lemmas on runs of `main` -/

theorem statCalls_append (a b : List Event) : statCalls (a ++ b) = statCalls a ++ statCalls b := by
  induction a with
  | nil => rfl
  | cons e a ih => cases e <;> simp [statCalls, ih]

theorem listenCalls_append (a b : List Event) :
    listenCalls (a ++ b) = listenCalls a ++ listenCalls b := by
  induction a with
  | nil => rfl
  | cons e a ih => cases e <;> simp [listenCalls, ih]

theorem handlers_append (a b : List Event) : handlers (a ++ b) = handlers a ++ handlers b := by
  induction a with
  | nil => rfl
  | cons e a ih => cases e <;> simp [handlers, ih]

theorem logLines_append (a b : List Event) : logLines (a ++ b) = logLines a ++ logLines b := by
  induction a with
  | nil => rfl
  | cons e a ih => cases e <;> simp [logLines, ih]

/-- The events of the probe are exactly its `os.Stat` calls. -/
theorem resolveStaticDir_trace (Stat : String → StatResult) (executableDir : String) :
    (resolveStaticDir Stat executableDir).2 =
      (statCalls (resolveStaticDir Stat executableDir).2).map Event.stat := by
  unfold resolveStaticDir
  simp only []
  split
  · split <;> simp [statCalls]
  · simp [statCalls]

/-- The `os.Stat` calls of the probe: the step-1 candidate, then the step-2
candidate if and only if the first check reported not-exist. -/
theorem resolveStaticDir_statCalls (Stat : String → StatResult) (executableDir : String) :
    statCalls (resolveStaticDir Stat executableDir).2 =
      "./go-dev-server/static" ::
        (if Stat "./go-dev-server/static" = .notExist then [Join [executableDir, "static"]]
         else []) := by
  unfold resolveStaticDir
  simp only []
  cases h : Stat "./go-dev-server/static" <;> simp [IsNotExist, statCalls]
  split <;> simp [statCalls]

theorem main_ok {p : Platform} {executablePath : String}
    (h : p.Executable = .ok executablePath) :
    main p =
      ⟨Event.executable :: (resolveStaticDir p.Stat (Dir executablePath)).2 ++
          (serve p (resolveStaticDir p.Stat (Dir executablePath)).1).trace,
        (serve p (resolveStaticDir p.Stat (Dir executablePath)).1).outcome⟩ := by
  simp [main, h]

theorem main_error {p : Platform} {err : String} (h : p.Executable = .error err) :
    main p =
      ⟨[Event.executable, Event.fatalf ("Failed to get executable path: " ++ err)],
        .exited 1⟩ := by
  simp [main, h]

theorem resolvedDir_ok {p : Platform} {executablePath : String}
    (h : p.Executable = .ok executablePath) :
    resolvedDir p = some (resolveStaticDir p.Stat (Dir executablePath)).1 := by
  simp [resolvedDir, h]

/-- The events of lines 28-37: handler, two log lines, the listen call, and a
fatal line if and only if `ListenAndServe` returned. -/
theorem serve_trace (p : Platform) (staticDir : String) :
    (serve p staticDir).trace =
      [Event.handle "/" staticDir,
       Event.printf "Starting server on http://localhost:8080",
       Event.printf ("Serving files from directory: " ++ staticDir),
       Event.listen ":8080"] ++
      (match p.ListenAndServe ":8080" with
       | .bindError err => [Event.fatalf ("Failed to start server: " ++ err)]
       | .serveError err => [Event.fatalf ("Failed to start server: " ++ err)]
       | .blocks => []) := by
  have e1 : (":" ++ "8080" : String) = ":8080" := by decide
  have e2 : ("Starting server on http://localhost:" ++ "8080" : String) =
      "Starting server on http://localhost:8080" := by decide
  unfold serve
  simp only [e1, e2]
  cases p.ListenAndServe ":8080" <;> simp

theorem serve_statCalls (p : Platform) (staticDir : String) :
    statCalls (serve p staticDir).trace = [] := by
  rw [serve_trace]
  cases p.ListenAndServe ":8080" <;> simp [statCalls]

theorem main_statCalls {p : Platform} {executablePath : String}
    (h : p.Executable = .ok executablePath) :
    statCalls (main p).trace =
      "./go-dev-server/static" ::
        (if p.Stat "./go-dev-server/static" = .notExist then
          [Join [Dir executablePath, "static"]]
         else []) := by
  rw [main_ok h]
  show statCalls ([Event.executable] ++ (_ ++ _)) = _
  rw [statCalls_append, statCalls_append, serve_statCalls, List.append_nil,
    resolveStaticDir_statCalls]
  rfl

theorem resolveStaticDir_no_other (Stat : String → StatResult) (executableDir : String) :
    handlers (resolveStaticDir Stat executableDir).2 = [] ∧
      listenCalls (resolveStaticDir Stat executableDir).2 = [] ∧
      logLines (resolveStaticDir Stat executableDir).2 = [] := by
  unfold resolveStaticDir
  simp only []
  split
  · split <;> simp [handlers, listenCalls, logLines]
  · simp [handlers, listenCalls, logLines]

theorem main_handlers {p : Platform} {executablePath : String}
    (h : p.Executable = .ok executablePath) :
    handlers (main p).trace = [("/", (resolveStaticDir p.Stat (Dir executablePath)).1)] := by
  rw [main_ok h]
  show handlers ([Event.executable] ++ (_ ++ _)) = _
  rw [handlers_append, handlers_append, (resolveStaticDir_no_other _ _).1, serve_trace]
  cases p.ListenAndServe ":8080" <;> simp [handlers]

theorem main_listenCalls {p : Platform} {executablePath : String}
    (h : p.Executable = .ok executablePath) :
    listenCalls (main p).trace = [":8080"] := by
  rw [main_ok h]
  show listenCalls ([Event.executable] ++ (_ ++ _)) = _
  rw [listenCalls_append, listenCalls_append, (resolveStaticDir_no_other _ _).2.1, serve_trace]
  cases p.ListenAndServe ":8080" <;> simp [listenCalls]

theorem main_logLines {p : Platform} {executablePath : String}
    (h : p.Executable = .ok executablePath) :
    logLines (main p).trace =
      ["Starting server on http://localhost:8080",
       "Serving files from directory: " ++ (resolveStaticDir p.Stat (Dir executablePath)).1] ++
      (match p.ListenAndServe ":8080" with
       | .bindError err => ["Failed to start server: " ++ err]
       | .serveError err => ["Failed to start server: " ++ err]
       | .blocks => []) := by
  rw [main_ok h]
  show logLines ([Event.executable] ++ (_ ++ _)) = _
  rw [logLines_append, logLines_append, (resolveStaticDir_no_other _ _).2.2, serve_trace]
  cases p.ListenAndServe ":8080" <;> simp [logLines]

/-- The value of `staticDir` after the probe, by the outcome of the checks. -/
theorem resolveStaticDir_fst (Stat : String → StatResult) (executableDir : String) :
    (resolveStaticDir Stat executableDir).1 =
      if Stat "./go-dev-server/static" = .notExist then
        if Stat (Join [executableDir, "static"]) = .notExist then "./static"
        else Join [executableDir, "static"]
      else "./go-dev-server/static" := by
  unfold resolveStaticDir
  simp only []
  cases h1 : Stat "./go-dev-server/static" <;> simp [IsNotExist]
  cases h2 : Stat (Join [executableDir, "static"]) <;> simp

/-! ## The claims -/

/-- C1 (P1, resolution order): when the executable lookup succeeds and
`os.Stat` succeeds on the step-1 candidate `./go-dev-server/static`, the
resolved static directory is exactly `./go-dev-server/static`, for every
executable path and whatever `os.Stat` reports on any other path. -/
theorem step1_selected_when_present (p : Platform) (executablePath : String)
    (hexe : p.Executable = .ok executablePath)
    (h1 : p.Stat "./go-dev-server/static" = .ok) :
    resolvedDir p = some "./go-dev-server/static" := by
  rw [resolvedDir_ok hexe]
  simp [resolveStaticDir, h1, IsNotExist]

theorem step1_selected_when_present_witness :
    platformAllExist.Executable = .ok "/usr/bin/app" ∧
      platformAllExist.Stat "./go-dev-server/static" = .ok ∧
      resolvedDir platformAllExist = some "./go-dev-server/static" :=
  ⟨rfl, rfl, step1_selected_when_present platformAllExist "/usr/bin/app" rfl rfl⟩

/-- C2 (counterexample): `os.Stat` fails on the step-1 candidate with an error
other than not-exist, so the candidate is not found on disk, and the step-2
candidate exists; the resolver nevertheless keeps `./go-dev-server/static` and
does not return `filepath.Join(filepath.Dir(executablePath), "static")`. -/
theorem step1_kept_when_stat_fails_otherwise :
    platformStep1NotDir.Executable = .ok "/usr/bin/app" ∧
      platformStep1NotDir.Stat "./go-dev-server/static" ≠ .ok ∧
      platformStep1NotDir.Stat (Join [Dir "/usr/bin/app", "static"]) = .ok ∧
      resolvedDir platformStep1NotDir = some "./go-dev-server/static" ∧
      resolvedDir platformStep1NotDir ≠ some (Join [Dir "/usr/bin/app", "static"]) :=
  ⟨rfl, by decide, by decide, by decide, by decide⟩

/-- C2 (amended; P2, fallback when step 1 is absent): when the executable
lookup succeeds, the check on the step-1 candidate reports not-exist
(`os.IsNotExist`) and the check on the step-2 candidate succeeds, the resolved
static directory is `filepath.Join(filepath.Dir(executablePath), "static")`. -/
theorem step2_selected_when_step1_absent (p : Platform) (executablePath : String)
    (hexe : p.Executable = .ok executablePath)
    (h1 : p.Stat "./go-dev-server/static" = .notExist)
    (h2 : p.Stat (Join [Dir executablePath, "static"]) = .ok) :
    resolvedDir p = some (Join [Dir executablePath, "static"]) := by
  rw [resolvedDir_ok hexe]
  simp [resolveStaticDir, h1, h2, IsNotExist]

theorem step2_selected_when_step1_absent_witness :
    platformStep2.Stat "./go-dev-server/static" = .notExist ∧
      platformStep2.Stat (Join [Dir "/usr/bin/app", "static"]) = .ok ∧
      resolvedDir platformStep2 = some "/usr/bin/static" :=
  ⟨by decide, by decide,
    (step2_selected_when_step1_absent platformStep2 "/usr/bin/app" rfl (by decide)
      (by decide)).trans (by decide)⟩

/-- C3 (counterexample): the step-1 candidate does not exist and `os.Stat` on
the step-2 candidate fails with an error other than not-exist, so neither
check succeeds; the resolver nevertheless returns the step-2 candidate, not
`./static`. -/
theorem step3_not_reached_when_stat_fails_otherwise :
    platformStep2Loop.Executable = .ok "/usr/bin/app" ∧
      platformStep2Loop.Stat "./go-dev-server/static" ≠ .ok ∧
      platformStep2Loop.Stat (Join [Dir "/usr/bin/app", "static"]) ≠ .ok ∧
      resolvedDir platformStep2Loop = some (Join [Dir "/usr/bin/app", "static"]) ∧
      resolvedDir platformStep2Loop ≠ some "./static" :=
  ⟨rfl, by decide, by decide, by decide, by decide⟩

/-- C3 (amended; P3, final fallback): when the executable lookup succeeds and
the checks on the step-1 and step-2 candidates both report not-exist
(`os.IsNotExist`), the resolved static directory is exactly `./static`;
`os.Stat` is not called on `./static`, and the result is the same whatever
`os.Stat` would report on `./static`. -/
theorem step3_unconditional (p : Platform) (executablePath : String)
    (hexe : p.Executable = .ok executablePath)
    (h1 : p.Stat "./go-dev-server/static" = .notExist)
    (h2 : p.Stat (Join [Dir executablePath, "static"]) = .notExist) :
    resolvedDir p = some "./static" ∧
      "./static" ∉ statCalls (main p).trace ∧
      ∀ r : StatResult,
        resolvedDir { p with Stat := fun path => if path = "./static" then r else p.Stat path }
          = some "./static" := by
  refine ⟨?_, ?_, ?_⟩
  · rw [resolvedDir_ok hexe]
    simp [resolveStaticDir, h1, h2, IsNotExist]
  · rw [main_statCalls hexe]
    have hj := Join_ne_step3 [Dir executablePath, "static"]
    simp [h1, Ne.symm hj]
  · intro r
    have hj := Join_ne_step3 [Dir executablePath, "static"]
    simp [resolvedDir, hexe, resolveStaticDir, h1, h2, IsNotExist, hj]

theorem step3_unconditional_witness :
    resolvedDir platformNoneExist = some "./static" ∧
      "./static" ∉ statCalls (main platformNoneExist).trace :=
  ⟨(step3_unconditional platformNoneExist "/usr/bin/app" rfl rfl rfl).1,
    (step3_unconditional platformNoneExist "/usr/bin/app" rfl rfl rfl).2.1⟩

/-- C4 (counterexample): when `os.Stat` on the step-1 candidate fails with an
error other than not-exist, the resolver returns `./go-dev-server/static`
although the existence check on it did not succeed, and it does not move on to
step 2. -/
theorem candidate_used_without_existing :
    platformDenied.Stat "./go-dev-server/static" ≠ .ok ∧
      resolvedDir platformDenied = some "./go-dev-server/static" ∧
      statCalls (main platformDenied).trace = ["./go-dev-server/static"] := by
  decide

/-- C4 (amended): a candidate is passed over exactly when its existence check
reports not-exist.  Whenever the resolver returns `./go-dev-server/static` or
the step-2 candidate, the check on the returned path did not report not-exist;
the step-2 check is made exactly when the step-1 check reported not-exist, and
`./static` is returned exactly when both checks reported not-exist. -/
theorem candidate_used_unless_not_exist (p : Platform) (executablePath : String)
    (hexe : p.Executable = .ok executablePath) :
    (resolvedDir p = some "./go-dev-server/static" →
        p.Stat "./go-dev-server/static" ≠ .notExist) ∧
      (resolvedDir p = some (Join [Dir executablePath, "static"]) →
        p.Stat "./go-dev-server/static" = .notExist ∧
        p.Stat (Join [Dir executablePath, "static"]) ≠ .notExist) ∧
      (p.Stat "./go-dev-server/static" ≠ .notExist →
        resolvedDir p = some "./go-dev-server/static" ∧
        statCalls (main p).trace = ["./go-dev-server/static"]) ∧
      (p.Stat "./go-dev-server/static" = .notExist →
        statCalls (main p).trace =
          ["./go-dev-server/static", Join [Dir executablePath, "static"]]) ∧
      (p.Stat "./go-dev-server/static" = .notExist →
        p.Stat (Join [Dir executablePath, "static"]) ≠ .notExist →
        resolvedDir p = some (Join [Dir executablePath, "static"])) ∧
      (resolvedDir p = some "./static" ↔
        p.Stat "./go-dev-server/static" = .notExist ∧
        p.Stat (Join [Dir executablePath, "static"]) = .notExist) := by
  have hj1 := Join_ne_step1 [Dir executablePath, "static"]
  have hj3 := Join_ne_step3 [Dir executablePath, "static"]
  have h13 : ("./static" : String) ≠ "./go-dev-server/static" := by decide
  rw [resolvedDir_ok hexe, main_statCalls hexe, resolveStaticDir_fst]
  by_cases h1 : p.Stat "./go-dev-server/static" = .notExist
  · by_cases h2 : p.Stat (Join [Dir executablePath, "static"]) = .notExist
    · simp [h1, h2, h13, Ne.symm hj3]
    · simp [h1, h2, hj1, hj3]
  · simp [h1, Ne.symm hj1, Ne.symm h13]

theorem candidate_used_unless_not_exist_witness :
    platformDenied.Stat "./go-dev-server/static" ≠ .notExist ∧
      resolvedDir platformDenied = some "./go-dev-server/static" ∧
      statCalls (main platformDenied).trace = ["./go-dev-server/static"] :=
  ⟨by decide,
    (candidate_used_unless_not_exist platformDenied "/usr/bin/app" rfl).2.2.1 (by decide)⟩

/-- C5: the resolved static directory is a non-empty string, for every
executable path (the empty path, `/`, a path without a directory component,
...) and every outcome of the existence checks. -/
theorem resolved_dir_nonempty (Stat : String → StatResult) (executablePath : String) :
    (resolveStaticDir Stat (Dir executablePath)).1 ≠ "" := by
  rw [resolveStaticDir_fst]
  split
  · split
    · decide
    · exact Join_static_ne_empty _
  · decide

/-- C6: directory resolution fails if and only if `os.Executable` fails.  When
it fails, the run is exactly the lookup followed by the fatal log line and exit
code 1, with no `os.Stat` call, no handler and no listen call, whatever exists
on disk.  When it succeeds, a directory is resolved, and the run goes from the
lookup through the `os.Stat` calls to the registration of the handler without
a fatal line. -/
theorem resolution_fatal_iff_lookup_fails (p : Platform) :
    (resolvedDir p = none ↔ ∃ err, p.Executable = .error err) ∧
      (∀ err, p.Executable = .error err →
        main p =
          ⟨[Event.executable, Event.fatalf ("Failed to get executable path: " ++ err)],
            .exited 1⟩ ∧
        statCalls (main p).trace = [] ∧ handlers (main p).trace = [] ∧
        listenCalls (main p).trace = []) ∧
      (∀ executablePath, p.Executable = .ok executablePath →
        ∃ dir rest, resolvedDir p = some dir ∧
          (main p).trace =
            Event.executable :: (statCalls (main p).trace).map Event.stat ++
              Event.handle "/" dir :: rest) := by
  refine ⟨?_, ?_, ?_⟩
  · cases h : p.Executable <;> simp [resolvedDir, h]
  · intro err h
    rw [main_error h]
    simp [statCalls, handlers, listenCalls]
  · intro executablePath h
    refine ⟨(resolveStaticDir p.Stat (Dir executablePath)).1,
      (serve p (resolveStaticDir p.Stat (Dir executablePath)).1).trace.drop 1,
      resolvedDir_ok h, ?_⟩
    rw [main_statCalls h, ← resolveStaticDir_statCalls, ← resolveStaticDir_trace, main_ok h,
      serve_trace]
    simp

theorem resolution_fatal_iff_lookup_fails_witness :
    main platformNoExecutable =
        ⟨[Event.executable,
          Event.fatalf
            "Failed to get executable path: readlink /proc/self/exe: permission denied"],
          .exited 1⟩ ∧
      statCalls (main platformNoExecutable).trace = [] ∧
      handlers (main platformNoExecutable).trace = [] ∧
      listenCalls (main platformNoExecutable).trace = [] :=
  (resolution_fatal_iff_lookup_fails platformNoExecutable).2.1
    "readlink /proc/self/exe: permission denied" rfl

/-- C7 (counterexample): in a run where the bind on port 8080 fails, the log
holds the two informational lines before the fatal bind-error line. -/
theorem info_lines_logged_when_bind_fails :
    platformPortInUse.ListenAndServe ":8080" =
        .bindError "listen tcp :8080: bind: address already in use" ∧
      logLines (main platformPortInUse).trace =
        ["Starting server on http://localhost:8080",
         "Serving files from directory: ./go-dev-server/static",
         "Failed to start server: listen tcp :8080: bind: address already in use"] := by
  decide

/-- C7 (amended): in every run in which the executable lookup succeeds, the two
informational lines (listening URL, resolved serving directory) are logged
before the bind is attempted, whether or not the bind then succeeds; they are
the first lines of the log, and a run in which the bind fails logs them
followed by the fatal bind-error line. -/
theorem info_lines_logged_before_bind (p : Platform) (executablePath : String)
    (hexe : p.Executable = .ok executablePath) :
    ∃ dir, resolvedDir p = some dir ∧
      (∃ before after,
        (main p).trace =
          before ++
            [Event.printf "Starting server on http://localhost:8080",
             Event.printf ("Serving files from directory: " ++ dir),
             Event.listen ":8080"] ++ after ∧
        logLines before = [] ∧ listenCalls before = []) ∧
      (∀ err, p.ListenAndServe ":8080" = .bindError err →
        logLines (main p).trace =
          ["Starting server on http://localhost:8080",
           "Serving files from directory: " ++ dir,
           "Failed to start server: " ++ err]) ∧
      (p.ListenAndServe ":8080" = .blocks →
        logLines (main p).trace =
          ["Starting server on http://localhost:8080",
           "Serving files from directory: " ++ dir]) := by
  refine ⟨_, resolvedDir_ok hexe, ?_, ?_, ?_⟩
  · refine ⟨Event.executable :: (resolveStaticDir p.Stat (Dir executablePath)).2 ++
      [Event.handle "/" (resolveStaticDir p.Stat (Dir executablePath)).1],
      (serve p (resolveStaticDir p.Stat (Dir executablePath)).1).trace.drop 4, ?_, ?_, ?_⟩
    · rw [main_ok hexe, serve_trace]
      simp
    · show logLines ([Event.executable] ++ (_ ++ _)) = _
      rw [logLines_append, logLines_append, (resolveStaticDir_no_other _ _).2.2]
      rfl
    · show listenCalls ([Event.executable] ++ (_ ++ _)) = _
      rw [listenCalls_append, listenCalls_append, (resolveStaticDir_no_other _ _).2.1]
      rfl
  · intro err h
    rw [main_logLines hexe, h]
    rfl
  · intro h
    rw [main_logLines hexe, h]
    rfl

theorem info_lines_logged_before_bind_witness :
    ∃ dir, resolvedDir platformPortInUse = some dir ∧
      logLines (main platformPortInUse).trace =
        ["Starting server on http://localhost:8080",
         "Serving files from directory: " ++ dir,
         "Failed to start server: " ++ "listen tcp :8080: bind: address already in use"] := by
  obtain ⟨dir, h1, _, h3, _⟩ :=
    info_lines_logged_before_bind platformPortInUse "/usr/bin/app" rfl
  exact ⟨dir, h1, h3 _ rfl⟩

/-- C8: in every run `http.ListenAndServe` is called at most once and only on
`:8080`; if that call returns an error (the bind failed, or serving stopped
later), the run ends with the listen call followed by the fatal line carrying
the error, and exit code 1, with no further listen call. -/
theorem bind_failure_fatal_no_retry (p : Platform) :
    (listenCalls (main p).trace = [] ∨ listenCalls (main p).trace = [":8080"]) ∧
      ∀ executablePath err, p.Executable = .ok executablePath →
        (p.ListenAndServe ":8080" = .bindError err ∨
          p.ListenAndServe ":8080" = .serveError err) →
        (main p).outcome = .exited 1 ∧
        listenCalls (main p).trace = [":8080"] ∧
        ∃ before, (main p).trace =
          before ++ [Event.listen ":8080", Event.fatalf ("Failed to start server: " ++ err)] := by
  constructor
  · cases h : p.Executable with
    | error err => left; rw [main_error h]; rfl
    | ok executablePath => right; exact main_listenCalls h
  · intro executablePath err hexe hbind
    refine ⟨?_, main_listenCalls hexe, ?_⟩
    · rw [main_ok hexe]
      have e1 : (":" ++ "8080" : String) = ":8080" := by decide
      rcases hbind with hbind | hbind <;> simp [serve, e1, hbind]
    · refine ⟨Event.executable :: (resolveStaticDir p.Stat (Dir executablePath)).2 ++
        [Event.handle "/" (resolveStaticDir p.Stat (Dir executablePath)).1,
         Event.printf "Starting server on http://localhost:8080",
         Event.printf ("Serving files from directory: " ++
           (resolveStaticDir p.Stat (Dir executablePath)).1)], ?_⟩
      rw [main_ok hexe, serve_trace]
      rcases hbind with hbind | hbind <;> rw [hbind] <;> simp

theorem bind_failure_fatal_no_retry_witness :
    (main platformPortInUse).outcome = .exited 1 ∧
      listenCalls (main platformPortInUse).trace = [":8080"] ∧
      ∃ before, (main platformPortInUse).trace =
        before ++ [Event.listen ":8080",
          Event.fatalf ("Failed to start server: " ++
            "listen tcp :8080: bind: address already in use")] :=
  (bind_failure_fatal_no_retry platformPortInUse).2 "/usr/bin/app" _ rfl (Or.inl rfl)

/-- C9: in every run that reaches the listen call, exactly one handler is
registered, for the pattern `/`, a file server rooted at the directory the
resolver produced, and that same directory is the one in the
`Serving files from directory` log line. -/
theorem resolved_dir_configures_file_server (p : Platform) (addr : String)
    (hreach : Event.listen addr ∈ (main p).trace) :
    ∃ dir, resolvedDir p = some dir ∧
      handlers (main p).trace = [("/", dir)] ∧
      Event.printf ("Serving files from directory: " ++ dir) ∈ (main p).trace ∧
      ∀ line, Event.printf line ∈ (main p).trace →
        line = "Starting server on http://localhost:8080" ∨
        line = "Serving files from directory: " ++ dir := by
  cases h : p.Executable with
  | error err =>
    rw [main_error h] at hreach
    simp at hreach
  | ok executablePath =>
    refine ⟨_, resolvedDir_ok h, main_handlers h, ?_, ?_⟩
    · rw [main_ok h, serve_trace]
      simp
    · intro line hline
      rw [main_ok h, serve_trace, resolveStaticDir_trace] at hline
      simp only [List.cons_append, List.mem_cons, List.mem_append, List.mem_map,
        List.mem_singleton, List.nil_append] at hline
      cases hl : p.ListenAndServe ":8080" <;> simp [hl] at hline <;> exact hline

theorem resolved_dir_configures_file_server_witness :
    ∃ dir, resolvedDir platformStep2 = some dir ∧
      handlers (main platformStep2).trace = [("/", dir)] ∧
      Event.printf ("Serving files from directory: " ++ dir) ∈ (main platformStep2).trace := by
  obtain ⟨dir, h1, h2, h3, _⟩ :=
    resolved_dir_configures_file_server platformStep2 ":8080" (by decide)
  exact ⟨dir, h1, h2, h3⟩

/-- C10: in every run where the executable lookup succeeds, `os.Stat` is called
first on `./go-dev-server/static`, then on the step-2 candidate if and only if
the first check reported not-exist, and never on `./static`; at most two calls
are made, and exactly one when the step-1 candidate exists. -/
theorem probes_are_lazy_and_ordered (p : Platform) (executablePath : String)
    (hexe : p.Executable = .ok executablePath) :
    statCalls (main p).trace =
        "./go-dev-server/static" ::
          (if p.Stat "./go-dev-server/static" = .notExist then
            [Join [Dir executablePath, "static"]]
           else []) ∧
      "./static" ∉ statCalls (main p).trace ∧
      (statCalls (main p).trace).length ≤ 2 ∧
      (p.Stat "./go-dev-server/static" = .ok →
        statCalls (main p).trace = ["./go-dev-server/static"]) := by
  have hj3 := Join_ne_step3 [Dir executablePath, "static"]
  rw [main_statCalls hexe]
  refine ⟨rfl, ?_, ?_, ?_⟩
  · split <;> simp [Ne.symm hj3]
  · split <;> simp
  · intro h; simp [h]

theorem probes_are_lazy_and_ordered_witness :
    statCalls (main platformAllExist).trace = ["./go-dev-server/static"] :=
  (probes_are_lazy_and_ordered platformAllExist "/usr/bin/app" rfl).2.2.2 rfl

end GoDevServer
